import Mathlib

/- Verification development for the rust-devtools-mcp server.

This file gives a shallow embedding of the core logic of the repository:
the language-server progress handler and its indexing notifications
(src/lsp/client_state.rs), the completion-signal channel used by the
session (src/lsp/rust_analyzer_lsp.rs), the project registry and its
notification/persistence effects (src/context.rs), the tool-call project
management path (src/mcp/server.rs), the symbol resolver and the edit
applier (src/mcp/utils.rs), and the cargo output parser
(src/cargo_remote.rs).  Rust strings are modelled as lists of
characters; byte lengths and byte offsets are computed with the UTF-8
size of each character, matching the byte arithmetic of the source.
External collaborators (the rust-analyzer subprocess, serde's JSON
parser, the regex engine, the file system) enter the model as explicit
function parameters or explicit state. -/

namespace DevTools

/-- A Rust string, modelled as the list of its characters. -/
abbrev Str := List Char

/-- Byte length of a string: the sum of the UTF-8 sizes of its
characters.  This models Rust's `str::len`. -/
def utf8Len (s : Str) : Nat := (s.map Char.utf8Size).sum

/-- Splits a string at a separator character.  `splitOnChar sep s` has
one entry per separator-free segment, including empty segments. -/
def splitOnChar (sep : Char) : Str → List Str
  | [] => [[]]
  | c :: rest =>
    if c = sep then [] :: splitOnChar sep rest
    else
      match splitOnChar sep rest with
      | [] => [[c]]
      | l :: ls => (c :: l) :: ls

/-- Drops one trailing carriage return, as Rust's `str::lines` does on
each produced line. -/
def stripCR (l : Str) : Str := if l.getLast? = some '\r' then l.dropLast else l

/-- Rust's `str::lines`: split on newline terminators, so a final
trailing newline does not produce an extra empty line, and each line has
a trailing carriage return removed. -/
def rustLines (s : Str) : List Str :=
  let parts := splitOnChar '\n' s
  let parts := if parts.getLast? = some [] then parts.dropLast else parts
  parts.map stripCR

/- ------------------------------------------------------------------
   src/lsp/mod.rs and src/lsp/client_state.rs: progress notifications
   ------------------------------------------------------------------ -/

/-- lsp_types::NumberOrString, the type of progress tokens. -/
inductive NumberOrString
  | str (s : String)
  | num (n : Int)
deriving DecidableEq

/-- The fields of lsp_types::WorkDoneProgressBegin read by the source:
`title` and `percentage`. -/
structure WorkDoneProgressBegin where
  title : String
  percentage : Option Nat
deriving DecidableEq

/-- The fields of lsp_types::WorkDoneProgressReport read by the source:
`message` and `percentage`. -/
structure WorkDoneProgressReport where
  message : Option String
  percentage : Option Nat
deriving DecidableEq

/-- The fields of lsp_types::WorkDoneProgressEnd read by the source. -/
structure WorkDoneProgressEnd where
  message : Option String
deriving DecidableEq

/-- lsp_types::WorkDoneProgress.  The source's `End` constructor is
called `finish` here because `end` is a Lean keyword. -/
inductive WorkDoneProgress
  | begin (b : WorkDoneProgressBegin)
  | report (r : WorkDoneProgressReport)
  | finish (e : WorkDoneProgressEnd)
deriving DecidableEq

/-- lsp_types::ProgressParams: a token and a begin/report/end value. -/
structure ProgressParams where
  token : NumberOrString
  value : WorkDoneProgress
deriving DecidableEq

/-- IndexingStage from src/lsp/mod.rs. -/
inductive IndexingStage
  | Building
  | CachePriming
  | Indexing
  | Unknown (s : String)
deriving DecidableEq

/-- IndexingProgress from src/lsp/mod.rs.  The `percentage` field is an
f32 in the source but only ever holds an integral LSP percentage, so it
is carried as a natural number. -/
structure IndexingProgress where
  current_crate : Option String
  current_count : Option Nat
  total_count : Option Nat
  stage : IndexingStage
  percentage : Option Nat
deriving DecidableEq

/-- LspNotification from src/lsp/mod.rs.  Project roots are modelled as
strings. -/
inductive LspNotification
  | indexing (project : String) (is_indexing : Bool) (progress : Option IndexingProgress)
deriving DecidableEq

/-- RA_INDEXING_TOKENS from src/lsp/client_state.rs: the known
stage-token set. -/
def RA_INDEXING_TOKENS : List String :=
  ["rustAnalyzer/Indexing", "rustAnalyzer/cachePriming", "rustAnalyzer/Building"]

/-- ClientState::parse_progress from src/lsp/client_state.rs.  The two
regex extractions (crate name and current/total counts) are external
library calls and enter as the function parameters `crateCap` and
`countCap`, applied to the free-text message exactly where the source
applies the regexes. -/
def parse_progress (crateCap : String → Option String)
    (countCap : String → Option (Nat × Nat)) (params : ProgressParams) :
    Option IndexingProgress :=
  let stage : IndexingStage :=
    match params.token with
    | .str s =>
      if s = "rustAnalyzer/Building" then .Building
      else if s = "rustAnalyzer/cachePriming" then .CachePriming
      else if s = "rustAnalyzer/Indexing" then .Indexing
      else .Unknown s
    | .num n => .Unknown ("numeric_" ++ toString n)
  let message : String :=
    match params.value with
    | .begin b => b.title
    | .report r => r.message.getD ""
    | .finish _ => ""
  let percentage : Option Nat :=
    match params.value with
    | .begin b => b.percentage
    | .report r => r.percentage
    | .finish _ => none
  let counts := countCap message
  some { current_crate := crateCap message
         current_count := counts.map Prod.fst
         total_count := counts.map Prod.snd
         stage := stage
         percentage := percentage }

/-- The observable effects of one call to ClientState::progress: the
notifications pushed onto the notifier channel, in order, and the number
of completion signals pushed onto the indexed channel. -/
structure ProgressEffects where
  notifs : List LspNotification
  signalSends : Nat
deriving DecidableEq

/-- ClientState::progress from src/lsp/client_state.rs.  A send on the
notifier or indexed channel that fails is logged by the source and does
not change control flow, so the effects record every attempted send.
`indexed_tx` is always `Some` (set once in `new_router` and never
taken), so the end branch always attempts one completion-signal send. -/
def progress (crateCap : String → Option String)
    (countCap : String → Option (Nat × Nat)) (project : String)
    (params : ProgressParams) : ProgressEffects :=
  let is_indexing : Bool :=
    match params.token with
    | .str s => RA_INDEXING_TOKENS.contains s
    | .num _ => false
  let is_work_done : Bool :=
    match params.value with
    | .finish _ => true
    | _ => false
  if is_indexing then
    let prog := parse_progress crateCap countCap params
    if is_work_done then
      { notifs := [.indexing project false prog], signalSends := 1 }
    else
      { notifs := [.indexing project true prog], signalSends := 0 }
  else
    { notifs := [], signalSends := 0 }

/-- A begin progress event for a token, as rust-analyzer sends it. -/
def beginEv (token : String) (title : String) : ProgressParams :=
  { token := .str token, value := .begin { title := title, percentage := none } }

/-- A report progress event for a token. -/
def reportEv (token : String) (message : String) : ProgressParams :=
  { token := .str token, value := .report { message := some message, percentage := none } }

/-- An end progress event for a token. -/
def endEv (token : String) : ProgressParams :=
  { token := .str token, value := .finish { message := none } }

/-- All notifications emitted by a sequence of progress events handled
by one ClientState. -/
def emittedNotifs (crateCap : String → Option String)
    (countCap : String → Option (Nat × Nat)) (project : String)
    (events : List ProgressParams) : List LspNotification :=
  events.flatMap (fun p => (progress crateCap countCap project p).notifs)

/-- The `is_indexing` flag carried by a notification. -/
def indexingFlag : LspNotification → Bool
  | .indexing _ b _ => b

/- ------------------------------------------------------------------
   src/lsp/rust_analyzer_lsp.rs: the completion-signal channel
   ------------------------------------------------------------------ -/

/-- One step of a session history: either a progress event arriving from
the server, or a caller receiving on the completion channel (the
`indexed_rx.recv_async()` wait in `open_file`). -/
inductive SessionOp
  | ev (p : ProgressParams)
  | recv

/-- The state of one session's channels during a history: the number of
buffered completion signals (`flume::unbounded` has no capacity bound;
a `try_send` with the receiver alive always succeeds and enqueues), the
notifications emitted so far, and the outcome of each receive so far —
`true` when a buffered signal was consumed, `false` when the buffer was
empty and the receiver would block. -/
structure SessionRun where
  buffer : Nat
  notifs : List LspNotification
  recvResults : List Bool
deriving DecidableEq

/-- One step of the session model. -/
def sessionStep (crateCap : String → Option String)
    (countCap : String → Option (Nat × Nat)) (project : String)
    (st : SessionRun) (op : SessionOp) : SessionRun :=
  match op with
  | .ev p =>
    let eff := progress crateCap countCap project p
    { st with buffer := st.buffer + eff.signalSends, notifs := st.notifs ++ eff.notifs }
  | .recv =>
    if st.buffer = 0 then { st with recvResults := st.recvResults ++ [false] }
    else { st with buffer := st.buffer - 1, recvResults := st.recvResults ++ [true] }

/-- Runs a session history from a given state. -/
def runSessionFrom (crateCap : String → Option String)
    (countCap : String → Option (Nat × Nat)) (project : String)
    (st : SessionRun) (ops : List SessionOp) : SessionRun :=
  ops.foldl (sessionStep crateCap countCap project) st

/-- Runs a session history from the initial state (empty channel). -/
def runSession (crateCap : String → Option String)
    (countCap : String → Option (Nat × Nat)) (project : String)
    (ops : List SessionOp) : SessionRun :=
  runSessionFrom crateCap countCap project
    { buffer := 0, notifs := [], recvResults := [] } ops

/-- A history alternating `k` end events with `k` receives, each waiter
arriving after the previous release. -/
def endRecvOps (token : String) (k : Nat) : List SessionOp :=
  (List.replicate k [SessionOp.ev (endEv token), SessionOp.recv]).flatten

/- ------------------------------------------------------------------
   src/mcp/utils.rs: the edit applier
   ------------------------------------------------------------------ -/

/-- lsp_types::Position: a zero-based line and a per-line character
index. -/
structure Position where
  line : Nat
  character : Nat
deriving DecidableEq

/-- The derived ordering on positions: line first, then character.  This
is the `Ord` instance the source's descending sort compares with. -/
def posLe (p q : Position) : Prop :=
  p.line < q.line ∨ (p.line = q.line ∧ p.character ≤ q.character)

/-- Strict version of the position ordering. -/
def posLt (p q : Position) : Prop :=
  p.line < q.line ∨ (p.line = q.line ∧ p.character < q.character)

instance (p q : Position) : Decidable (posLe p q) := by
  unfold posLe; infer_instance

instance (p q : Position) : Decidable (posLt p q) := by
  unfold posLt; infer_instance

/-- lsp_types::Range.  The source's `end` field is called `endPos` here
because `end` is a Lean keyword. -/
structure Range where
  start : Position
  endPos : Position
deriving DecidableEq

/-- lsp_types::TextEdit: a range and its replacement text. -/
structure TextEdit where
  range : Range
  new_text : Str
deriving DecidableEq

/-- The inner walk of the `pos_to_offset` closure in
`apply_edits_to_file`: walk the lines with a running line index and a
running byte offset, adding `line.len() + 1` per line passed over, and
on the target line sum the UTF-8 sizes of the first `character`
characters; a line index past the last line or a character index past
the line's character count yields `none`. -/
def posToOffsetAux (pos : Position) : List Str → Nat → Nat → Option Nat
  | [], _, _ => none
  | line :: rest, i, offset =>
    if i = pos.line then
      if pos.character ≤ line.length then
        some (offset + utf8Len (line.take pos.character))
      else
        none
    else
      posToOffsetAux pos rest (i + 1) (offset + utf8Len line + 1)

/-- The `pos_to_offset` closure of `apply_edits_to_file`: convert an LSP
position to a byte offset in the given text. -/
def pos_to_offset (pos : Position) (content : Str) : Option Nat :=
  posToOffsetAux pos (rustLines content) 0 0

/-- Splits a string at a byte offset, if the offset lies on a character
boundary within the string; otherwise `none`.  Models the byte-offset
indexing of Rust's `String::replace_range`, which aborts on a
non-boundary offset. -/
def byteSplit : Str → Nat → Option (Str × Str)
  | s, 0 => some ([], s)
  | [], _ + 1 => none
  | c :: rest, n + 1 =>
    if c.utf8Size ≤ n + 1 then
      (byteSplit rest (n + 1 - c.utf8Size)).map (fun pr => (c :: pr.1, pr.2))
    else none

/-- Rust's `String::replace_range(startB..endB, repl)` on byte offsets.
`none` models the abort on a non-character-boundary offset. -/
def replaceRange (content : Str) (startB endB : Nat) (repl : Str) : Option Str :=
  match byteSplit content startB with
  | none => none
  | some (pre, rest) =>
    match byteSplit rest (endB - startB) with
    | none => none
    | some (_, post) => some (pre ++ repl ++ post)

/-- The ways one edit can fail inside `apply_edits_to_file`:
`badPosition` is the "Could not convert LSP position to byte offset"
error, `invalidRange` the "Invalid range in text edit" error, and
`charBoundary` the abort of `String::replace_range` on an offset that is
inside a character of the current buffer. -/
inductive EditErr
  | badPosition
  | invalidRange
  | charBoundary
deriving DecidableEq

/-- The body of the edit loop of `apply_edits_to_file` for one edit:
convert both positions to byte offsets against the ORIGINAL content,
check `start_offset <= end_offset && end_offset <= content.len()`
against the CURRENT in-memory copy, and splice the replacement into the
current copy. -/
def applyOneEdit (original content : Str) (edit : TextEdit) : Except EditErr Str :=
  match pos_to_offset edit.range.start original, pos_to_offset edit.range.endPos original with
  | some startOff, some endOff =>
    if startOff ≤ endOff ∧ endOff ≤ utf8Len content then
      match replaceRange content startOff endOff edit.new_text with
      | some c => .ok c
      | none => .error .charBoundary
    else .error .invalidRange
  | _, _ => .error .badPosition

/-- Stable insertion into a list sorted by descending start position:
the new edit passes over edits with a strictly greater start and lands
before the first edit whose start is less than or equal to its own, so
edits with equal starts keep their original relative order — the same
order Rust's stable `sort_by(|a, b| b.range.start.cmp(&a.range.start))`
produces. -/
def insertEditDesc (e : TextEdit) : List TextEdit → List TextEdit
  | [] => [e]
  | x :: xs =>
    if posLt e.range.start x.range.start then x :: insertEditDesc e xs
    else e :: x :: xs

/-- The source's stable descending sort of a file's edits by start
position. -/
def sortEdits (edits : List TextEdit) : List TextEdit :=
  edits.foldr insertEditDesc []

/-- The edit loop of `apply_edits_to_file`: fold the sorted edits over
the in-memory copy, stopping at the first failing edit. -/
def applyEditsGo (original : Str) : Str → List TextEdit → Except EditErr Str
  | content, [] => .ok content
  | content, e :: es =>
    match applyOneEdit original content e with
    | .ok c => applyEditsGo original c es
    | .error err => .error err

/-- `apply_edits_to_file` from src/mcp/utils.rs, for a file whose
current content is `content`: sort the edits bottom-to-top, run the edit
loop, and only then call `fs::write` once.  The second component is the
list of file writes performed, in order. -/
def apply_edits_to_file (content : Str) (edits : List TextEdit) :
    Except EditErr Str × List Str :=
  match applyEditsGo content content (sortEdits edits) with
  | .ok c => (.ok c, [c])
  | .error e => (.error e, [])

/- ------------------------------------------------------------------
   src/mcp/utils.rs: apply_workspace_edit over a file-system model
   ------------------------------------------------------------------ -/

/-- A file URI as the source uses it: `to_file_path()` either yields a
path (modelled as a string) or fails. -/
structure Uri where
  filePath : Option String
deriving DecidableEq

/-- lsp_types::WorkspaceEdit as read by the source: the `changes`
mapping (an optional list of per-file edit batches) and the presence of
the `document_changes` field, which `apply_workspace_edit` never
reads. -/
structure WorkspaceEdit where
  changes : Option (List (Uri × List TextEdit))
  document_changes : Option Unit
deriving DecidableEq

/-- The file system, as a mapping from paths to contents. -/
abbrev FileSystem := List (String × Str)

/-- `fs::read_to_string`. -/
def fsRead (fs : FileSystem) (p : String) : Option Str :=
  (fs.find? (fun e => e.1 = p)).map (fun e => e.2)

/-- `fs::write`: update the content stored under a path. -/
def fsWrite (fs : FileSystem) (p : String) (c : Str) : FileSystem :=
  if (fs.find? (fun e => e.1 = p)).isSome then
    fs.map (fun e => if e.1 = p then (p, c) else e)
  else fs ++ [(p, c)]

/-- The per-file loop of `apply_workspace_edit`: resolve the URI, read
the file, run `apply_edits_to_file`, and abort on the first failure.
Returns the outcome, the final file system, and the write log in
order. -/
def applyChangesGo (fs : FileSystem) (writes : List (String × Str)) :
    List (Uri × List TextEdit) → Except String Unit × FileSystem × List (String × Str)
  | [] => (.ok (), fs, writes)
  | (uri, textEdits) :: rest =>
    match uri.filePath with
    | none => (.error "Invalid file URI in WorkspaceEdit", fs, writes)
    | some p =>
      match fsRead fs p with
      | none => (.error "Failed to apply edits: read failed", fs, writes)
      | some content =>
        match apply_edits_to_file content textEdits with
        | (.ok c, _) => applyChangesGo (fsWrite fs p c) (writes ++ [(p, c)]) rest
        | (.error _, _) => (.error "Failed to apply edits: invalid edit", fs, writes)

/-- `apply_workspace_edit` from src/mcp/utils.rs: an absent `changes`
mapping returns `Ok(())` at once (the `document_changes` field is left
to a TODO in the source); otherwise each file's batch is applied in
turn. -/
def apply_workspace_edit (fs : FileSystem) (edit : WorkspaceEdit) :
    Except String Unit × FileSystem × List (String × Str) :=
  match edit.changes with
  | none => (.ok (), fs, [])
  | some changes => applyChangesGo fs [] changes

/- ------------------------------------------------------------------
   src/mcp/utils.rs: the symbol resolver
   ------------------------------------------------------------------ -/

/-- The symbol kinds that occur in the resolver model; `Other` stands
for the remaining lsp_types::SymbolKind constructors.  The source's
grouping key `format!("{}-{:?}", name, kind)` is injective in the pair
(name, kind) because no kind's debug form contains a dash, so the key is
modelled as the pair itself. -/
inductive SymbolKind
  | Function
  | Struct
  | Enum
  | Module
  | Other (n : Nat)
deriving DecidableEq

/-- lsp_types::SymbolInformation as the resolver uses it: name, kind and
the result of `location.uri.to_file_path()`. -/
structure SymbolInformation where
  name : String
  kind : SymbolKind
  path : Option Str
  container_name : Option String
deriving DecidableEq

/-- Generic prefix test on lists. -/
def listStartsWith {α : Type} [DecidableEq α] : List α → List α → Bool
  | [], _ => true
  | _ :: _, [] => false
  | a :: ps, b :: ls => a = b && listStartsWith ps ls

/-- Generic contiguous-sublist test: models `str::contains` on strings.
`listContainsSub needle hay` holds when `needle` occurs contiguously in
`hay`. -/
def listContainsSub {α : Type} [DecidableEq α] (needle : List α) : List α → Bool
  | [] => needle.isEmpty
  | c :: rest => listStartsWith needle (c :: rest) || listContainsSub needle rest

/-- Generic suffix test: models `str::ends_with`. -/
def listEndsWith {α : Type} [DecidableEq α] (srch l : List α) : Bool :=
  listStartsWith srch.reverse l.reverse

/-- Lower-cases a string character by character, modelling
`str::to_lowercase` on the ASCII paths the scorer inspects. -/
def lowerStr (s : Str) : Str := s.map Char.toLower

/-- `calculate_symbol_score` from src/mcp/utils.rs: the location
heuristic over the lower-cased path string.  A symbol whose URI has no
file path scores 0. -/
def calculate_symbol_score (symbol : SymbolInformation) : Int :=
  match symbol.path with
  | none => 0
  | some file_path =>
    let path_str := lowerStr file_path
    let score : Int := 100
    let score := if listContainsSub "/src/".toList path_str
                    || listContainsSub "\\src\\".toList path_str then score + 50 else score
    let score := if listContainsSub "test".toList path_str
                    || listContainsSub "spec".toList path_str then score - 30 else score
    let score := if listContainsSub "generated".toList path_str
                    || listContainsSub "build".toList path_str
                    || listContainsSub "target".toList path_str then score - 40 else score
    let score := if listEndsWith ".rs".toList path_str || listEndsWith ".ts".toList path_str
                    || listEndsWith ".js".toList path_str || listEndsWith ".py".toList path_str
                    || listEndsWith ".java".toList path_str || listEndsWith ".cpp".toList path_str
                    || listEndsWith ".c".toList path_str || listEndsWith ".h".toList path_str
                 then score + 20 else score
    let path_depth := path_str.count '/' + path_str.count '\\'
    let score := score - (path_depth : Int) * 2
    let score := if listEndsWith "lib.rs".toList path_str
                    || listEndsWith "main.rs".toList path_str then score + 30
                 else if listEndsWith "mod.rs".toList path_str then score + 10
                 else score
    score

/-- The scan inside `choose_best_symbol`: keep the current best unless a
later symbol scores strictly higher (ties keep the earlier symbol). -/
def chooseBestGo (best : SymbolInformation) (bestScore : Int) :
    List SymbolInformation → SymbolInformation
  | [] => best
  | s :: rest =>
    let sc := calculate_symbol_score s
    if bestScore < sc then chooseBestGo s sc rest else chooseBestGo best bestScore rest

/-- `choose_best_symbol` from src/mcp/utils.rs; the source indexes
`symbols[0]`, so the empty group (which never occurs) yields `none`. -/
def choose_best_symbol : List SymbolInformation → Option SymbolInformation
  | [] => none
  | s :: rest => some (chooseBestGo s (calculate_symbol_score s) rest)

/-- The grouping key of `deduplicate_symbols`. -/
def symKey (s : SymbolInformation) : String × SymbolKind := (s.name, s.kind)

/-- `deduplicate_symbols` from src/mcp/utils.rs: group by (name, kind)
and keep the best-scoring member of each group.  The source iterates a
`HashMap`, whose group order is unspecified; this model fixes one
deterministic group order (the order `List.dedup` keeps), which is a
faithful refinement — every theorem below is insensitive to the group
order or quantifies over the produced list. -/
def deduplicate_symbols (symbols : List SymbolInformation) : List SymbolInformation :=
  ((symbols.map symKey).dedup).filterMap
    (fun k => choose_best_symbol (symbols.filter (fun s => symKey s = k)))

/-- Path components for `Path::ends_with`: split on the separator and
drop empty components, as `Path::components` normalizes them away. -/
def splitComponents (p : Str) : List Str :=
  (splitOnChar '/' p).filter (fun c => ¬ c.isEmpty)

/-- The hint test of the resolver loop:
`symbol_path.ends_with(hint_path) || symbol_path.to_string_lossy().contains(hint)`.
A symbol whose URI has no file path never matches (the loop's
`if let Ok(symbol_path)` guard). -/
def matchesHint (hint : Str) (symbol : SymbolInformation) : Bool :=
  match symbol.path with
  | none => false
  | some p => listEndsWith (splitComponents hint) (splitComponents p)
      || listContainsSub hint p

/-- The resolver's error cases: `NotFound` with the symbol name, or the
ambiguity error enumerating the candidates (name, kind, file) whose URIs
resolve to file paths — the source's `filter_map` over
`to_file_path().ok()`. -/
inductive ResolveErr
  | notFound (symbol_name : String)
  | ambiguous (symbol_name : String) (candidates : List (String × SymbolKind × Str))
deriving DecidableEq

/-- The candidate list embedded in the ambiguity error. -/
def enumerateCandidates (ds : List SymbolInformation) :
    List (String × SymbolKind × Str) :=
  ds.filterMap (fun s => s.path.map (fun p => (s.name, s.kind, p)))

/-- The tail of `resolve_symbol_in_project` after deduplication: a
single survivor is returned; otherwise, with a hint, the loop returns
the FIRST deduplicated candidate whose path matches the hint; otherwise
the ambiguity error. -/
def resolveTail (symbol_name : String) (ds : List SymbolInformation)
    (file_hint : Option Str) : Except ResolveErr SymbolInformation :=
  match ds with
  | [d] => .ok d
  | _ =>
    match file_hint with
    | some hint =>
      match ds.find? (matchesHint hint) with
      | some s => .ok s
      | none => .error (.ambiguous symbol_name (enumerateCandidates ds))
    | none => .error (.ambiguous symbol_name (enumerateCandidates ds))

/-- `resolve_symbol_in_project` from src/mcp/utils.rs, starting from the
flat symbol list the workspace-symbol query produced (the LSP call and
the nested-to-flat normalization happen before this logic): zero
results is `NotFound`, one result is returned directly, and otherwise
deduplication and the hint logic decide. -/
def resolve_symbol_in_project (symbol_name : String)
    (symbols : List SymbolInformation) (file_hint : Option Str) :
    Except ResolveErr SymbolInformation :=
  match symbols with
  | [] => .error (.notFound symbol_name)
  | [s] => .ok s
  | _ => resolveTail symbol_name (deduplicate_symbols symbols) file_hint

/- ------------------------------------------------------------------
   src/context.rs: the project registry and its effects
   ------------------------------------------------------------------ -/

/-- ProjectDescription from src/context.rs. -/
structure ProjectDescription where
  root : String
  name : String
  is_indexing_lsp : Bool
deriving DecidableEq

/-- ContextNotification from src/context.rs.  The `Mcp` payload is an
external rmcp value the registry never inspects, so it is carried
abstractly. -/
inductive ContextNotification
  | lsp (n : LspNotification)
  | mcp
  | projectAdded (root : String)
  | projectRemoved (root : String)
  | projectDescriptions (ds : List ProjectDescription)
deriving DecidableEq

/-- The registry map: project root to session identifier (standing for
the `Arc<ProjectContext>`). -/
abbrev Registry := List (String × Nat)

/-- `DashMap::get` on the registry. -/
def regLookup : Registry → String → Option Nat
  | [], _ => none
  | e :: rest, root => if e.1 = root then some e.2 else regLookup rest root

/-- `DashMap::insert`: replaces the entry under an existing key,
otherwise appends. -/
def regInsert : Registry → String → Nat → Registry
  | [], root, sid => [(root, sid)]
  | e :: rest, root, sid =>
    if e.1 = root then (root, sid) :: rest else e :: regInsert rest root sid

/-- `DashMap::remove`: drops the entry under the key. -/
def regRemove : Registry → String → Registry
  | [], _ => []
  | e :: rest, root =>
    if e.1 = root then regRemove rest root else e :: regRemove rest root

/-- The externally visible effects of a registry operation, in program
order.  `spawnSnapshot` is `request_project_descriptions`, which spawns
the task that sends the `ProjectDescriptions` snapshot notification;
`configWrite ok` is the `write_config` call, whose failure the source
logs and otherwise ignores. -/
inductive CtxEvent
  | insertEntry (root : String)
  | removeEntry (root : String)
  | spawnSnapshot
  | configWrite (ok : Bool)
  | notify (n : ContextNotification)
deriving DecidableEq

/-- `Context::add_project` from src/context.rs.  `spawn` is the result
of `RustAnalyzerLsp::new` (`none` aborts the call with an error before
any mutation).  On success the source inserts the session, calls
`request_project_descriptions`, then `write_config`, then sends
`ProjectAdded`, and returns `Ok` regardless of the write outcome. -/
def add_project (reg : Registry) (root : String) (spawn : Option Nat)
    (writeOk : Bool) : Registry × List CtxEvent × Bool :=
  match spawn with
  | none => (reg, [], false)
  | some sid =>
    (regInsert reg root sid,
     [CtxEvent.insertEntry root, CtxEvent.spawnSnapshot, CtxEvent.configWrite writeOk,
      CtxEvent.notify (.projectAdded root)],
     true)

/-- `Context::remove_project` from src/context.rs: when the root is
present, remove the entry, send `ProjectRemoved`, then `write_config`;
when absent, do nothing and return `none`. -/
def remove_project (reg : Registry) (root : String) (writeOk : Bool) :
    Registry × Option Nat × List CtxEvent :=
  match regLookup reg root with
  | none => (reg, none, [])
  | some sid =>
    (regRemove reg root, some sid,
     [CtxEvent.removeEntry root, CtxEvent.notify (.projectRemoved root),
      CtxEvent.configWrite writeOk])

/- ------------------------------------------------------------------
   src/mcp/server.rs: the manage_projects add path
   ------------------------------------------------------------------ -/

/-- The tool-call outcome of the add path of `manage_projects`: an
error `CallToolResult` or a success message. -/
inductive ManageOutcome
  | errorResult (msg : String)
  | successMsg (msg : String)
deriving DecidableEq

/-- Whether the outcome is an error result. -/
def ManageOutcome.isError : ManageOutcome → Bool
  | .errorResult _ => true
  | .successMsg _ => false

/-- The `add_project_path` branch of `DevToolsServer::manage_projects`
from src/mcp/server.rs.  `canon` models tilde expansion plus
`Path::canonicalize` (an external file-system call); `spawn` models the
session-spawn result inside `Context::add_project`.  When the canonical
path is already registered, the source skips the addition and pushes the
informational message "Project ... is already loaded." into a SUCCESS
result. -/
def manage_add (reg : Registry) (canon : String → Option String)
    (path : String) (spawn : Option Nat) (writeOk : Bool) :
    Registry × ManageOutcome :=
  match canon path with
  | none => (reg, .errorResult "Invalid project path")
  | some canonical_path =>
    match regLookup reg canonical_path with
    | none =>
      match add_project reg canonical_path spawn writeOk with
      | (reg2, _, true) => (reg2, .successMsg "Successfully added project")
      | (reg2, _, false) => (reg2, .errorResult "Failed to load project")
    | some _ => (reg, .successMsg "already loaded")

/- ------------------------------------------------------------------
   src/context.rs: the notification-bus consumer loop
   ------------------------------------------------------------------ -/

/-- The observable actions of one iteration of the consumer loop in
`Context::new`, in program order: forwarding a notification to the
outbound channel, or storing a project's `is_indexing_lsp` flag. -/
inductive BusAction
  | forward (n : ContextNotification)
  | storeIsIndexing (root : String) (b : Bool)
deriving DecidableEq

/-- The LSP arm of the `tokio::select!` loop in `Context::new`: on an
`Indexing` notification the source first sends the wrapped notification
to the outbound channel, then — if the project is registered — stores
the `is_indexing` flag. -/
def handle_lsp_event (roots : List String) (n : LspNotification) : List BusAction :=
  match n with
  | .indexing project is_indexing _ =>
    BusAction.forward (.lsp n) ::
      (if project ∈ roots then [BusAction.storeIsIndexing project is_indexing] else [])

/- ------------------------------------------------------------------
   src/cargo_remote.rs: the cargo output parser
   ------------------------------------------------------------------ -/

/-- CompilerMessageSpan from src/cargo_remote.rs. -/
structure CompilerMessageSpan where
  column_start : Nat
  column_end : Nat
  file_name : String
  line_start : Nat
  line_end : Nat
  is_primary : Bool
deriving DecidableEq

/-- CompilerMessage from src/cargo_remote.rs.  The `code` field is an
arbitrary JSON value the source never inspects, so it is carried
abstractly. -/
structure CompilerMessage where
  rendered : String
  code : Option Unit
  level : String
  spans : List CompilerMessageSpan
deriving DecidableEq

/-- CargoMessage from src/cargo_remote.rs.  The JSON payloads of
`CompilerArtifact` and `BuildScriptExecuted` are never inspected. -/
inductive CargoMessage
  | compilerArtifact
  | buildScriptExecuted
  | compilerMessage (message : CompilerMessage)
  | buildFinished (success : Bool)
deriving DecidableEq

/-- `CargoRemote::run_cargo_command` from src/cargo_remote.rs, given the
lines of captured standard output.  `parse` models serde's
`json::from_str::<CargoMessage>`; every non-empty line that parses is
collected in order as a typed message, and every non-empty line that
fails to parse is preserved verbatim in order (the test path of cargo
does not honor `message-format=json`). -/
def run_cargo_command (parse : Str → Option CargoMessage) (stdout : Str) :
    List CargoMessage × List Str :=
  ((rustLines stdout).filter (fun line => !line.isEmpty)).foldl
    (fun acc line =>
      match parse line with
      | some m => (acc.1 ++ [m], acc.2)
      | none => (acc.1, acc.2 ++ [line]))
    ([], [])

/-- `CargoRemote::check_structured` from src/cargo_remote.rs: keep the
`CompilerMessage` entries whose level is "error" or "warning" and whose
span list is non-empty. -/
def check_structured (parse : Str → Option CargoMessage) (stdout : Str) :
    List CompilerMessage :=
  (run_cargo_command parse stdout).1.filterMap
    (fun message =>
      match message with
      | .compilerMessage m =>
        if (m.level == "error" || m.level == "warning") && !m.spans.isEmpty
        then some m else none
      | _ => none)

/-- `CargoRemote::check_rendered`: the same filter, rendered text
only. -/
def check_rendered (parse : Str → Option CargoMessage) (stdout : Str) :
    List String :=
  (check_structured parse stdout).map (fun d => d.rendered)

/- ------------------------------------------------------------------
   Concrete instances used by the theorems below
   ------------------------------------------------------------------ -/

/-- A trivial crate-name extraction (the regex matches nothing). -/
def cc0 : String → Option String := fun _ => none

/-- A trivial count extraction (the regex matches nothing). -/
def tc0 : String → Option (Nat × Nat) := fun _ => none

/-- A structured error diagnostic with one primary span. -/
def c9err : CompilerMessage :=
  { rendered := "E", code := none, level := "error",
    spans := [{ column_start := 1, column_end := 2, file_name := "main.rs",
                line_start := 3, line_end := 3, is_primary := true }] }

/-- A structured warning diagnostic with no spans. -/
def c9warn : CompilerMessage :=
  { rendered := "W", code := none, level := "warning", spans := [] }

/-- A concrete JSON-line parser for the cargo scenario: three JSON lines
parse and the two plain test-output lines do not. -/
def c9parse : Str → Option CargoMessage := fun l =>
  if l = "E".toList then some (.compilerMessage c9err)
  else if l = "W".toList then some (.compilerMessage c9warn)
  else if l = "F".toList then some (.buildFinished true)
  else none

/-- The captured standard output of the cargo scenario. -/
def c9stdout : Str := "E\nW\nF\ntest output line 1\ntest output line 2".toList

/-- A function symbol in one file. -/
def c3s1 : SymbolInformation :=
  { name := "Foo", kind := .Function, path := some "/w/a/foo.rs".toList,
    container_name := none }

/-- A struct symbol of the same name in another file; both files match
the hint "foo.rs". -/
def c3s2 : SymbolInformation :=
  { name := "Foo", kind := .Struct, path := some "/w/b/foo.rs".toList,
    container_name := none }

/-- The single round-trip edit of the spec's edit example: replace the
range covering "cd" of "abcdef" with "XYZ". -/
def c2edit : TextEdit :=
  { range := { start := { line := 0, character := 2 },
               endPos := { line := 0, character := 4 } },
    new_text := "XYZ".toList }

/-- A canonicalization that maps the tilde path to its canonical
root. -/
def c4canon : String → Option String := fun p =>
  if p = "~/proj" then some "/proj" else none

/-- A registry already holding the canonical root. -/
def c4reg : Registry := [("/proj", 7)]

/- ------------------------------------------------------------------
   Helper lemmas
   ------------------------------------------------------------------ -/

theorem progress_beginEv_tracked (cc : String → Option String)
    (tc : String → Option (Nat × Nat)) (proj X title : String)
    (hX : X ∈ RA_INDEXING_TOKENS) :
    progress cc tc proj (beginEv X title) =
      { notifs := [.indexing proj true (parse_progress cc tc (beginEv X title))],
        signalSends := 0 } := by
  simp [progress, beginEv, hX]

theorem progress_reportEv_tracked (cc : String → Option String)
    (tc : String → Option (Nat × Nat)) (proj X msg : String)
    (hX : X ∈ RA_INDEXING_TOKENS) :
    progress cc tc proj (reportEv X msg) =
      { notifs := [.indexing proj true (parse_progress cc tc (reportEv X msg))],
        signalSends := 0 } := by
  simp [progress, reportEv, hX]

theorem progress_endEv_tracked (cc : String → Option String)
    (tc : String → Option (Nat × Nat)) (proj X : String)
    (hX : X ∈ RA_INDEXING_TOKENS) :
    progress cc tc proj (endEv X) =
      { notifs := [.indexing proj false (parse_progress cc tc (endEv X))],
        signalSends := 1 } := by
  simp [progress, endEv, hX]

theorem countP_flatMap_replicate {α β : Type} (p : β → Bool) (f : α → List β)
    (a : α) (n : Nat) :
    ((List.replicate n a).flatMap f).countP p = n * (f a).countP p := by
  induction n with
  | zero => simp
  | succ k ih => simp [List.replicate_succ, List.countP_append, ih, Nat.succ_mul, Nat.add_comm]

/- ------------------------------------------------------------------
   C1: emission counts of the indexing state machine
   ------------------------------------------------------------------ -/

/-- C1, counterexample: for the event sequence begin(X), report(X),
report(X), end(X) on the tracked stage X = rustAnalyzer/Indexing the
handler emits THREE notifications with `is_indexing: true` (one for the
begin and one for each report), not exactly one as the claim states. -/
theorem C1_counterexample :
    (emittedNotifs cc0 tc0 "p"
        [beginEv "rustAnalyzer/Indexing" "t", reportEv "rustAnalyzer/Indexing" "m",
         reportEv "rustAnalyzer/Indexing" "m", endEv "rustAnalyzer/Indexing"]).countP
        indexingFlag = 3 ∧
    ¬ ((emittedNotifs cc0 tc0 "p"
        [beginEv "rustAnalyzer/Indexing" "t", reportEv "rustAnalyzer/Indexing" "m",
         reportEv "rustAnalyzer/Indexing" "m", endEv "rustAnalyzer/Indexing"]).countP
        indexingFlag = 1) := by
  constructor
  · decide
  · decide

/-- C1, amended: for a tracked stage X, the event sequence begin(X),
n × report(X), end(X) makes the handler emit exactly one notification
with `is_indexing: false` (from the end event) and exactly n + 1
notifications with `is_indexing: true` — one for the begin event and one
re-emission per report event. -/
theorem C1_indexing_fsm_counts (cc : String → Option String)
    (tc : String → Option (Nat × Nat)) (proj X title msg : String) (n : Nat)
    (hX : X ∈ RA_INDEXING_TOKENS) :
    (emittedNotifs cc tc proj
        (beginEv X title :: (List.replicate n (reportEv X msg) ++ [endEv X]))).countP
        indexingFlag = n + 1 ∧
    (emittedNotifs cc tc proj
        (beginEv X title :: (List.replicate n (reportEv X msg) ++ [endEv X]))).countP
        (fun nt => !(indexingFlag nt)) = 1 := by
  constructor
  · simp [emittedNotifs, List.countP_append, countP_flatMap_replicate,
      progress_beginEv_tracked cc tc proj X title hX,
      progress_reportEv_tracked cc tc proj X msg hX,
      progress_endEv_tracked cc tc proj X hX, indexingFlag, Nat.add_comm]
  · simp [emittedNotifs, List.countP_append, countP_flatMap_replicate,
      progress_beginEv_tracked cc tc proj X title hX,
      progress_reportEv_tracked cc tc proj X msg hX,
      progress_endEv_tracked cc tc proj X hX, indexingFlag]

/-- C1, witness: the amended count theorem applied at the tracked stage
rustAnalyzer/Building with two report events. -/
theorem C1_indexing_fsm_counts_witness :
    (emittedNotifs cc0 tc0 "p"
        (beginEv "rustAnalyzer/Building" "t" ::
          (List.replicate 2 (reportEv "rustAnalyzer/Building" "m") ++
            [endEv "rustAnalyzer/Building"]))).countP indexingFlag = 2 + 1 ∧
    (emittedNotifs cc0 tc0 "p"
        (beginEv "rustAnalyzer/Building" "t" ::
          (List.replicate 2 (reportEv "rustAnalyzer/Building" "m") ++
            [endEv "rustAnalyzer/Building"]))).countP
        (fun nt => !(indexingFlag nt)) = 1 :=
  C1_indexing_fsm_counts cc0 tc0 "p" "rustAnalyzer/Building" "t" "m" 2 (by decide)

/- ------------------------------------------------------------------
   C6 and C7: the completion channel and token matching
   ------------------------------------------------------------------ -/

theorem runSessionFrom_append (cc : String → Option String)
    (tc : String → Option (Nat × Nat)) (proj : String) (st : SessionRun)
    (l1 l2 : List SessionOp) :
    runSessionFrom cc tc proj st (l1 ++ l2) =
      runSessionFrom cc tc proj (runSessionFrom cc tc proj st l1) l2 := by
  simp [runSessionFrom, List.foldl_append]

theorem runSessionFrom_endRecvPair (cc : String → Option String)
    (tc : String → Option (Nat × Nat)) (proj X : String)
    (hX : X ∈ RA_INDEXING_TOKENS) (st : SessionRun) :
    runSessionFrom cc tc proj st [SessionOp.ev (endEv X), SessionOp.recv] =
      { buffer := st.buffer,
        notifs := st.notifs ++ [.indexing proj false (parse_progress cc tc (endEv X))],
        recvResults := st.recvResults ++ [true] } := by
  simp [runSessionFrom, sessionStep, progress_endEv_tracked cc tc proj X hX]

theorem runSessionFrom_endRecvOps (cc : String → Option String)
    (tc : String → Option (Nat × Nat)) (proj X : String)
    (hX : X ∈ RA_INDEXING_TOKENS) (k : Nat) :
    ∀ st : SessionRun,
      (runSessionFrom cc tc proj st (endRecvOps X k)).recvResults =
        st.recvResults ++ List.replicate k true := by
  induction k with
  | zero => intro st; simp [endRecvOps, runSessionFrom]
  | succ k ih =>
    intro st
    have h1 : endRecvOps X (k + 1) =
        [SessionOp.ev (endEv X), SessionOp.recv] ++ endRecvOps X k := by
      simp [endRecvOps, List.replicate_succ]
    rw [h1, runSessionFrom_append, runSessionFrom_endRecvPair cc tc proj X hX, ih]
    simp [List.replicate_succ]

/-- C6, counterexample: after the first end event has released the first
waiter, a second waiter that begins waiting afterwards IS released by
the second end event — the completion channel is unbounded and every end
event enqueues a fresh signal of its own, so the signal is not
single-use as the claim states. -/
theorem C6_counterexample :
    (runSession cc0 tc0 "p"
        [.ev (endEv "rustAnalyzer/Indexing"), .recv,
         .ev (endEv "rustAnalyzer/Indexing"), .recv]).recvResults = [true, true] ∧
    (runSession cc0 tc0 "p"
        [.ev (endEv "rustAnalyzer/Indexing"), .recv,
         .ev (endEv "rustAnalyzer/Indexing"), .recv]).recvResults ≠ [true, false] := by
  constructor
  · decide
  · decide

/-- C6, amended: per session, every end progress event for a tracked
stage pushes one completion signal onto the (unbounded) channel, and
each signal releases one waiter, so in a history of k end events each
followed by one waiter, every one of the k waiters is released —
including waiters that start waiting after the first release. -/
theorem C6_completion_signal_rearms (cc : String → Option String)
    (tc : String → Option (Nat × Nat)) (proj X : String)
    (hX : X ∈ RA_INDEXING_TOKENS) (k : Nat) :
    (runSession cc tc proj (endRecvOps X k)).recvResults = List.replicate k true ∧
    (progress cc tc proj (endEv X)).signalSends = 1 := by
  refine ⟨?_, ?_⟩
  · simpa [runSession] using runSessionFrom_endRecvOps cc tc proj X hX k
      { buffer := 0, notifs := [], recvResults := [] }
  · rw [progress_endEv_tracked cc tc proj X hX]

/-- C6, witness: the amended theorem at the tracked Building stage with
two end/wait rounds. -/
theorem C6_completion_signal_rearms_witness :
    (runSession cc0 tc0 "p" (endRecvOps "rustAnalyzer/Building" 2)).recvResults =
      List.replicate 2 true ∧
    (progress cc0 tc0 "p" (endEv "rustAnalyzer/Building")).signalSends = 1 :=
  C6_completion_signal_rearms cc0 tc0 "p" "rustAnalyzer/Building" (by decide) 2

/-- C7, counterexample: a begin progress event whose token is not in the
known stage-token set produces NO IndexingUpdate notification at all
(and no completion signal) — it does not participate in the indexing
state machine as the claim states. -/
theorem C7_counterexample :
    progress cc0 tc0 "p"
        { token := .str "custom/progress",
          value := .begin { title := "t", percentage := none } } =
      { notifs := [], signalSends := 0 } := by
  decide

/-- C7, amended: tokens are matched by exact identity against the known
stage-token set; a progress event whose string token is outside the set,
or whose token is numeric, is dropped entirely — no notification and no
completion signal — even though `parse_progress` itself would map such a
token to the stage `Unknown(token)`, because `parse_progress` is only
ever invoked for tokens in the set. -/
theorem C7_unknown_tokens_ignored (cc : String → Option String)
    (tc : String → Option (Nat × Nat)) (proj : String) (s : String)
    (v : WorkDoneProgress) (n : Int) (hs : s ∉ RA_INDEXING_TOKENS) :
    progress cc tc proj { token := .str s, value := v } =
      { notifs := [], signalSends := 0 } ∧
    progress cc tc proj { token := .num n, value := v } =
      { notifs := [], signalSends := 0 } ∧
    (parse_progress cc tc { token := .str s, value := v }).map
        (fun p => p.stage) = some (.Unknown s) := by
  have h : ¬ (s = "rustAnalyzer/Indexing" ∨ s = "rustAnalyzer/cachePriming" ∨
      s = "rustAnalyzer/Building") := by
    simpa [RA_INDEXING_TOKENS] using hs
  push_neg at h
  obtain ⟨h1, h2, h3⟩ := h
  refine ⟨?_, ?_, ?_⟩
  · simp [progress, RA_INDEXING_TOKENS, h1, h2, h3]
  · simp [progress]
  · simp [parse_progress, h1, h2, h3]

/-- C7, witness: the amended theorem at a concrete unknown token. -/
theorem C7_unknown_tokens_ignored_witness :
    progress cc0 tc0 "p"
        { token := .str "custom/progress",
          value := .report { message := none, percentage := none } } =
      { notifs := [], signalSends := 0 } ∧
    progress cc0 tc0 "p"
        { token := .num 7,
          value := .report { message := none, percentage := none } } =
      { notifs := [], signalSends := 0 } ∧
    (parse_progress cc0 tc0
        { token := .str "custom/progress",
          value := .report { message := none, percentage := none } }).map
        (fun p => p.stage) = some (.Unknown "custom/progress") :=
  C7_unknown_tokens_ignored cc0 tc0 "p" "custom/progress"
    (.report { message := none, percentage := none }) 7 (by decide)

/- ------------------------------------------------------------------
   C8: the notification-bus consumer loop
   ------------------------------------------------------------------ -/

/-- C8, counterexample: on an IndexingUpdate event for a registered
project, the consumer loop forwards the notification to the outbound
channel FIRST and stores the project's `is_indexing` flag afterwards —
not flag-before-forward as the claim states. -/
theorem C8_counterexample :
    handle_lsp_event ["p"] (.indexing "p" true none) =
      [.forward (.lsp (.indexing "p" true none)), .storeIsIndexing "p" true] ∧
    handle_lsp_event ["p"] (.indexing "p" true none) ≠
      [.storeIsIndexing "p" true, .forward (.lsp (.indexing "p" true none))] := by
  constructor
  · decide
  · decide

/-- C8, amended: for every IndexingUpdate event whose project is
registered, the consumer loop performs exactly two actions in order:
first it forwards the event to the outbound notification channel, then
it updates the corresponding project's `is_indexing` flag. -/
theorem C8_forward_then_store (roots : List String) (project : String)
    (b : Bool) (prog : Option IndexingProgress) (h : project ∈ roots) :
    handle_lsp_event roots (.indexing project b prog) =
      [.forward (.lsp (.indexing project b prog)), .storeIsIndexing project b] := by
  simp [handle_lsp_event, h]

/-- C8, witness: the amended theorem at a registered project. -/
theorem C8_forward_then_store_witness :
    handle_lsp_event ["p"] (.indexing "p" false none) =
      [.forward (.lsp (.indexing "p" false none)), .storeIsIndexing "p" false] :=
  C8_forward_then_store ["p"] "p" false none (by decide)

/- ------------------------------------------------------------------
   C4: adding an already-loaded project
   ------------------------------------------------------------------ -/

/-- C4, counterexample: adding a path whose canonical root is already
registered does NOT fail with an error: the tool call leaves the
registry (and hence the existing session) unchanged and reports the
informational message "already loaded" inside a SUCCESS result. -/
theorem C4_counterexample :
    manage_add c4reg c4canon "~/proj" (some 9) true =
      (c4reg, .successMsg "already loaded") ∧
    (manage_add c4reg c4canon "~/proj" (some 9) true).2.isError = false := by
  constructor
  · rfl
  · rfl

/-- C4, amended: the manage_projects add path canonicalizes the given
path, and when a project with that canonical root is already present it
skips the addition, leaving the registry — and thus the existing session
for that root — unchanged, and reports a non-error "already loaded"
message rather than failing. -/
theorem C4_already_loaded_not_error (reg : Registry)
    (canon : String → Option String) (path cp : String) (spawn : Option Nat)
    (writeOk : Bool) (sid : Nat) (hc : canon path = some cp)
    (hl : regLookup reg cp = some sid) :
    manage_add reg canon path spawn writeOk = (reg, .successMsg "already loaded") ∧
    (manage_add reg canon path spawn writeOk).2.isError = false := by
  constructor
  · simp [manage_add, hc, hl]
  · simp [manage_add, hc, hl, ManageOutcome.isError]

/-- C4, witness: the amended theorem at the concrete registry. -/
theorem C4_already_loaded_not_error_witness :
    manage_add c4reg c4canon "~/proj" (some 11) false =
      (c4reg, .successMsg "already loaded") ∧
    (manage_add c4reg c4canon "~/proj" (some 11) false).2.isError = false :=
  C4_already_loaded_not_error c4reg c4canon "~/proj" "/proj" (some 11) false 7
    (by rfl) (by rfl)

/- ------------------------------------------------------------------
   C5: registry mutation effects
   ------------------------------------------------------------------ -/

theorem regLookup_insert (reg : Registry) (root : String) (sid : Nat) :
    regLookup (regInsert reg root sid) root = some sid := by
  induction reg with
  | nil => simp [regInsert, regLookup]
  | cons e rest ih =>
    by_cases h : e.1 = root
    · simp [regInsert, regLookup, h]
    · simp [regInsert, regLookup, h, ih]

theorem regLookup_remove (reg : Registry) (root : String) :
    regLookup (regRemove reg root) root = none := by
  induction reg with
  | nil => simp [regRemove, regLookup]
  | cons e rest ih =>
    by_cases h : e.1 = root
    · simp [regRemove, h, ih]
    · simp [regRemove, regLookup, h, ih]

/-- C5, counterexample: removing a registered project triggers the
ProjectRemoved notification and then the persistence write, but NO
snapshot notification at all — `remove_project` never calls
`request_project_descriptions` — so the claim that every mutating
registry operation triggers a persistence write followed by a snapshot
notification fails on removal. -/
theorem C5_counterexample :
    (remove_project [("/p", 1)] "/p" true).2.2 =
      [.removeEntry "/p", .notify (.projectRemoved "/p"), .configWrite true] ∧
    CtxEvent.spawnSnapshot ∉ (remove_project [("/p", 1)] "/p" true).2.2 := by
  constructor
  · decide
  · decide

/-- C5, amended: `add_project` inserts the session, then requests the
snapshot notification, then performs the persistence write, then sends
ProjectAdded — so the snapshot request precedes the write rather than
following it — and succeeds with the entry in place even when the write
fails (no rollback); `remove_project` on a registered root removes the
entry, sends ProjectRemoved, then performs the persistence write, and
emits no snapshot notification; in both operations a write failure is
merely logged. -/
theorem C5_registry_mutation_effects (reg : Registry) (root : String)
    (sid : Nat) (writeOk : Bool) (hl : regLookup reg root = some sid) :
    (add_project reg root (some sid) writeOk).2.1 =
      [.insertEntry root, .spawnSnapshot, .configWrite writeOk,
       .notify (.projectAdded root)] ∧
    (add_project reg root (some sid) writeOk).2.2 = true ∧
    regLookup (add_project reg root (some sid) writeOk).1 root = some sid ∧
    remove_project reg root writeOk =
      (regRemove reg root, some sid,
       [.removeEntry root, .notify (.projectRemoved root), .configWrite writeOk]) ∧
    regLookup (remove_project reg root writeOk).1 root = none := by
  refine ⟨rfl, rfl, ?_, ?_, ?_⟩
  · simpa [add_project] using regLookup_insert reg root sid
  · simp [remove_project, hl]
  · simp [remove_project, hl, regLookup_remove]

/-- C5, witness: the amended theorem at a concrete one-entry registry
with a failing persistence write. -/
theorem C5_registry_mutation_effects_witness :
    (add_project [("/p", 1)] "/p" (some 1) false).2.1 =
      [.insertEntry "/p", .spawnSnapshot, .configWrite false,
       .notify (.projectAdded "/p")] ∧
    (add_project [("/p", 1)] "/p" (some 1) false).2.2 = true ∧
    regLookup (add_project [("/p", 1)] "/p" (some 1) false).1 "/p" = some 1 ∧
    remove_project [("/p", 1)] "/p" false =
      (regRemove [("/p", 1)] "/p", some 1,
       [.removeEntry "/p", .notify (.projectRemoved "/p"), .configWrite false]) ∧
    regLookup (remove_project [("/p", 1)] "/p" false).1 "/p" = none :=
  C5_registry_mutation_effects [("/p", 1)] "/p" 1 false (by rfl)

/- ------------------------------------------------------------------
   C10: workspace edits without a changes mapping
   ------------------------------------------------------------------ -/

/-- C10: a WorkspaceEdit whose `changes` mapping is absent — whatever
its `document_changes` field holds — succeeds immediately and performs
no file-system write: the edit is silently treated as empty. -/
theorem C10_absent_changes_noop (fs : FileSystem) (edit : WorkspaceEdit)
    (h : edit.changes = none) :
    apply_workspace_edit fs edit = (.ok (), fs, []) := by
  simp [apply_workspace_edit, h]

/-- C10, witness: an edit carrying only `document_changes`. -/
theorem C10_absent_changes_noop_witness :
    apply_workspace_edit [("f", "x".toList)]
        { changes := none, document_changes := some () } =
      (.ok (), [("f", "x".toList)], []) :=
  C10_absent_changes_noop [("f", "x".toList)]
    { changes := none, document_changes := some () } rfl

/- ------------------------------------------------------------------
   C9: the cargo output parser and diagnostic filter
   ------------------------------------------------------------------ -/

/-- C9: `check_structured` keeps exactly the parsed CompilerMessage
entries whose level is error or warning and whose span list is
non-empty (the membership characterization), and on output consisting
of a JSON error with one span, a JSON warning with no spans, a JSON
build-finished message and two unparseable plain lines it returns
exactly the error while the two plain lines are preserved verbatim as
the unstructured output. -/
theorem C9_check_filters (parse : Str → Option CargoMessage) (stdout : Str)
    (l1 l2 l3 l4 l5 : Str) (err warn : CompilerMessage)
    (sp : CompilerMessageSpan)
    (h0 : (rustLines stdout).filter (fun l => !l.isEmpty) = [l1, l2, l3, l4, l5])
    (h1 : parse l1 = some (.compilerMessage err))
    (herrLevel : err.level = "error") (herrSpans : err.spans = [sp])
    (h2 : parse l2 = some (.compilerMessage warn))
    (hwarnLevel : warn.level = "warning") (hwarnSpans : warn.spans = [])
    (h3 : parse l3 = some (.buildFinished true))
    (h4 : parse l4 = none) (h5 : parse l5 = none) :
    check_structured parse stdout = [err] ∧
    (run_cargo_command parse stdout).2 = [l4, l5] ∧
    (∀ m : CompilerMessage, m ∈ check_structured parse stdout ↔
      (CargoMessage.compilerMessage m ∈ (run_cargo_command parse stdout).1 ∧
        (m.level = "error" ∨ m.level = "warning") ∧ m.spans ≠ [])) := by
  have hrun : run_cargo_command parse stdout =
      ([.compilerMessage err, .compilerMessage warn, .buildFinished true], [l4, l5]) := by
    unfold run_cargo_command
    rw [h0]
    simp [h1, h2, h3, h4, h5]
  refine ⟨?_, ?_, ?_⟩
  · simp [check_structured, hrun, herrLevel, hwarnLevel, herrSpans, hwarnSpans]
  · simp [hrun]
  · intro m
    simp only [check_structured, List.mem_filterMap]
    constructor
    · rintro ⟨a, ha, hfa⟩
      cases a with
      | compilerMessage mm =>
        by_cases hcond : (mm.level == "error" || mm.level == "warning") && !mm.spans.isEmpty
        · simp only [if_pos hcond, Option.some.injEq] at hfa
          subst hfa
          simp only [Bool.and_eq_true, Bool.or_eq_true, beq_iff_eq,
            Bool.not_eq_true', List.isEmpty_eq_false] at hcond
          exact ⟨ha, hcond.1, hcond.2⟩
        · simp [hcond] at hfa
      | compilerArtifact => simp at hfa
      | buildScriptExecuted => simp at hfa
      | buildFinished s => simp at hfa
    · rintro ⟨hmem, hlev, hsp⟩
      refine ⟨.compilerMessage m, hmem, ?_⟩
      have hc1 : (m.level == "error" || m.level == "warning") = true := by
        rcases hlev with h | h <;> simp [h]
      have hc2 : m.spans.isEmpty = false := by
        cases hsp2 : m.spans with
        | nil => exact absurd hsp2 hsp
        | cons a t => rfl
      simp [hc1, hc2]

/-- C9, witness: the filter theorem at the concrete five-line output. -/
theorem C9_check_filters_witness :
    check_structured c9parse c9stdout = [c9err] ∧
    (run_cargo_command c9parse c9stdout).2 =
      ["test output line 1".toList, "test output line 2".toList] :=
  ⟨(C9_check_filters c9parse c9stdout "E".toList "W".toList "F".toList
      "test output line 1".toList "test output line 2".toList c9err c9warn
      { column_start := 1, column_end := 2, file_name := "main.rs",
        line_start := 3, line_end := 3, is_primary := true }
      (by decide) (by decide) rfl rfl (by decide) rfl rfl (by decide)
      (by decide) (by decide)).1,
   (C9_check_filters c9parse c9stdout "E".toList "W".toList "F".toList
      "test output line 1".toList "test output line 2".toList c9err c9warn
      { column_start := 1, column_end := 2, file_name := "main.rs",
        line_start := 3, line_end := 3, is_primary := true }
      (by decide) (by decide) rfl rfl (by decide) rfl rfl (by decide)
      (by decide) (by decide)).2.1⟩

/- ------------------------------------------------------------------
   C3: symbol resolution with a file hint
   ------------------------------------------------------------------ -/

theorem deduplicate_length_le (symbols : List SymbolInformation) :
    (deduplicate_symbols symbols).length ≤ symbols.length := by
  calc (deduplicate_symbols symbols).length
      ≤ ((symbols.map symKey).dedup).length := List.length_filterMap_le _ _
    _ ≤ (symbols.map symKey).length := ((symbols.map symKey).dedup_sublist).length_le
    _ = symbols.length := List.length_map _ _

/-- C3, counterexample: two deduplicated candidates (a function and a
struct named Foo, in different files) BOTH match the file hint
"foo.rs", and the resolver returns the first of them rather than an
Ambiguous error — it does pick one of several still-matching
candidates. -/
theorem C3_counterexample :
    (deduplicate_symbols [c3s1, c3s2]).countP (matchesHint "foo.rs".toList) = 2 ∧
    resolve_symbol_in_project "Foo" [c3s1, c3s2] (some "foo.rs".toList) = .ok c3s1 := by
  constructor
  · decide
  · rfl

/-- C3, amended: when deduplication leaves more than one candidate and a
file hint is supplied, the resolver returns the FIRST deduplicated
candidate whose file path ends with or contains the hint — regardless of
how many candidates match — and only when no candidate matches does it
return the Ambiguous error enumerating the (name, kind, file) of every
deduplicated candidate whose URI yields a file path. -/
theorem C3_first_hint_match (symbol_name : String)
    (symbols : List SymbolInformation) (hint : Str)
    (h2 : 2 ≤ (deduplicate_symbols symbols).length) :
    (∀ s, (deduplicate_symbols symbols).find? (matchesHint hint) = some s →
      resolve_symbol_in_project symbol_name symbols (some hint) = .ok s) ∧
    ((deduplicate_symbols symbols).find? (matchesHint hint) = none →
      resolve_symbol_in_project symbol_name symbols (some hint) =
        .error (.ambiguous symbol_name
          (enumerateCandidates (deduplicate_symbols symbols)))) := by
  have hlen : 2 ≤ symbols.length := le_trans h2 (deduplicate_length_le symbols)
  cases symbols with
  | nil => simp at hlen
  | cons a t =>
    cases t with
    | nil => simp at hlen
    | cons b t2 =>
      have hresolve : resolve_symbol_in_project symbol_name (a :: b :: t2) (some hint) =
          resolveTail symbol_name (deduplicate_symbols (a :: b :: t2)) (some hint) := rfl
      obtain ⟨d1, ds1, hds⟩ : ∃ d1 ds1, deduplicate_symbols (a :: b :: t2) = d1 :: ds1 := by
        rcases hd : deduplicate_symbols (a :: b :: t2) with _ | ⟨d1, ds1⟩
        · rw [hd] at h2; simp at h2
        · exact ⟨d1, ds1, rfl⟩
      obtain ⟨d2, ds2, hds1⟩ : ∃ d2 ds2, ds1 = d2 :: ds2 := by
        rcases hd : ds1 with _ | ⟨d2, ds2⟩
        · rw [hd] at hds; rw [hds] at h2; simp at h2
        · exact ⟨d2, ds2, rfl⟩
      constructor
      · intro s hfind
        rw [hresolve, hds, hds1]
        rw [hds, hds1] at hfind
        simp [resolveTail, hfind]
      · intro hnone
        rw [hresolve, hds, hds1] at *
        rw [hds1] at hnone
        simp [resolveTail, hnone]

/-- C3, witness: the amended theorem at the two concrete candidates both
matching the hint. -/
theorem C3_first_hint_match_witness :
    resolve_symbol_in_project "Foo" [c3s1, c3s2] (some "bar/foo.rs".toList) =
      .error (.ambiguous "Foo"
        (enumerateCandidates (deduplicate_symbols [c3s1, c3s2]))) :=
  (C3_first_hint_match "Foo" [c3s1, c3s2] "bar/foo.rs".toList (by decide)).2
    (by decide)

/- ------------------------------------------------------------------
   C2: the per-file edit batch
   ------------------------------------------------------------------ -/

theorem utf8Len_append (a b : Str) : utf8Len (a ++ b) = utf8Len a + utf8Len b := by
  simp [utf8Len]

theorem utf8Len_take_le_take (l : Str) {a b : Nat} (h : a ≤ b) :
    utf8Len (l.take a) ≤ utf8Len (l.take b) := by
  have hb : b = a + (b - a) := by omega
  rw [hb, List.take_add, utf8Len_append]
  exact Nat.le_add_right _ _

theorem utf8Len_take_le (l : Str) (a : Nat) : utf8Len (l.take a) ≤ utf8Len l := by
  conv_rhs => rw [← List.take_append_drop a l]
  rw [utf8Len_append]
  exact Nat.le_add_right _ _

theorem posToOffsetAux_ge (pos : Position) :
    ∀ (lines : List Str) (i off o : Nat),
      posToOffsetAux pos lines i off = some o → off ≤ o := by
  intro lines
  induction lines with
  | nil => intro i off o h; simp [posToOffsetAux] at h
  | cons line rest ih =>
    intro i off o h
    by_cases hi : i = pos.line
    · simp only [posToOffsetAux, if_pos hi] at h
      by_cases hc : pos.character ≤ line.length
      · rw [if_pos hc] at h
        have := Option.some.inj h
        omega
      · rw [if_neg hc] at h
        exact absurd h (by simp)
    · simp only [posToOffsetAux, if_neg hi] at h
      have := ih (i + 1) (off + utf8Len line + 1) o h
      omega

theorem posToOffsetAux_none_of_lt (pos : Position) :
    ∀ (lines : List Str) (i off : Nat), pos.line < i →
      posToOffsetAux pos lines i off = none := by
  intro lines
  induction lines with
  | nil => intro i off _; simp [posToOffsetAux]
  | cons line rest ih =>
    intro i off hlt
    simp only [posToOffsetAux]
    rw [if_neg (by omega : ¬ i = pos.line)]
    exact ih (i + 1) _ (by omega)

theorem posToOffsetAux_mono (p q : Position) (hpq : posLe p q) :
    ∀ (lines : List Str) (i off op oq : Nat),
      posToOffsetAux p lines i off = some op →
      posToOffsetAux q lines i off = some oq → op ≤ oq := by
  intro lines
  induction lines with
  | nil => intro i off op oq hp _; simp [posToOffsetAux] at hp
  | cons line rest ih =>
    intro i off op oq hp hq
    by_cases hip : i = p.line
    · by_cases hiq : i = q.line
      · simp only [posToOffsetAux, if_pos hip] at hp
        simp only [posToOffsetAux, if_pos hiq] at hq
        by_cases hcp : p.character ≤ line.length
        · by_cases hcq : q.character ≤ line.length
          · rw [if_pos hcp] at hp
            rw [if_pos hcq] at hq
            have hop := Option.some.inj hp
            have hoq := Option.some.inj hq
            have hchar : p.character ≤ q.character := by
              rcases hpq with h | ⟨_, hle⟩
              · omega
              · exact hle
            have := utf8Len_take_le_take line hchar
            omega
          · rw [if_neg hcq] at hq
            exact absurd hq (by simp)
        · rw [if_neg hcp] at hp
          exact absurd hp (by simp)
      · simp only [posToOffsetAux, if_pos hip] at hp
        simp only [posToOffsetAux, if_neg hiq] at hq
        by_cases hcp : p.character ≤ line.length
        · rw [if_pos hcp] at hp
          have hop := Option.some.inj hp
          have hqge := posToOffsetAux_ge q rest (i + 1) (off + utf8Len line + 1) oq hq
          have htake := utf8Len_take_le line p.character
          omega
        · rw [if_neg hcp] at hp
          exact absurd hp (by simp)
    · by_cases hiq : i = q.line
      · have hplt : p.line < i := by
          rcases hpq with h | ⟨heq, _⟩ <;> omega
        rw [posToOffsetAux_none_of_lt p (line :: rest) i off hplt] at hp
        exact absurd hp (by simp)
      · simp only [posToOffsetAux, if_neg hip] at hp
        simp only [posToOffsetAux, if_neg hiq] at hq
        exact ih (i + 1) (off + utf8Len line + 1) op oq hp hq

theorem pos_to_offset_mono (p q : Position) (content : Str) (hpq : posLe p q)
    (op oq : Nat) (hp : pos_to_offset p content = some op)
    (hq : pos_to_offset q content = some oq) : op ≤ oq :=
  posToOffsetAux_mono p q hpq (rustLines content) 0 0 op oq hp hq

theorem posLe_of_posLt {p q : Position} (h : posLt p q) : posLe p q := by
  unfold posLt at h
  unfold posLe
  omega

theorem posLe_of_not_posLt {p q : Position} (h : ¬ posLt p q) : posLe q p := by
  unfold posLt at h
  unfold posLe
  omega

theorem posLe_trans {p q r : Position} (h1 : posLe p q) (h2 : posLe q r) :
    posLe p r := by
  unfold posLe at *
  omega

theorem mem_insertEditDesc {e x : TextEdit} {l : List TextEdit} :
    x ∈ insertEditDesc e l ↔ x = e ∨ x ∈ l := by
  induction l with
  | nil => simp [insertEditDesc]
  | cons a t ih =>
    by_cases h : posLt e.range.start a.range.start
    · have heq : insertEditDesc e (a :: t) = a :: insertEditDesc e t := by
        simp [insertEditDesc, h]
      rw [heq, List.mem_cons, ih, List.mem_cons]
      tauto
    · have heq : insertEditDesc e (a :: t) = e :: a :: t := by
        simp [insertEditDesc, h]
      rw [heq, List.mem_cons, List.mem_cons]

theorem insertEditDesc_pairwise {e : TextEdit} {l : List TextEdit}
    (hl : l.Pairwise (fun a b => posLe b.range.start a.range.start)) :
    (insertEditDesc e l).Pairwise (fun a b => posLe b.range.start a.range.start) := by
  induction l with
  | nil => simp [insertEditDesc]
  | cons x xs ih =>
    rcases List.pairwise_cons.mp hl with ⟨hx, hxs⟩
    by_cases h : posLt e.range.start x.range.start
    · simp only [insertEditDesc, if_pos h]
      rw [List.pairwise_cons]
      refine ⟨?_, ih hxs⟩
      intro y hy
      rcases mem_insertEditDesc.mp hy with rfl | hy2
      · exact posLe_of_posLt h
      · exact hx y hy2
    · simp only [insertEditDesc, if_neg h]
      rw [List.pairwise_cons]
      refine ⟨?_, hl⟩
      intro y hy
      rcases List.mem_cons.mp hy with rfl | hy2
      · exact posLe_of_not_posLt h
      · exact posLe_trans (hx y hy2) (posLe_of_not_posLt h)

theorem sortEdits_sorted (edits : List TextEdit) :
    (sortEdits edits).Pairwise (fun a b => posLe b.range.start a.range.start) := by
  unfold sortEdits
  induction edits with
  | nil => simp
  | cons e t ih =>
    simp only [List.foldr_cons]
    exact insertEditDesc_pairwise ih

theorem insertEditDesc_perm (e : TextEdit) (l : List TextEdit) :
    (insertEditDesc e l).Perm (e :: l) := by
  induction l with
  | nil => simp [insertEditDesc]
  | cons x xs ih =>
    by_cases h : posLt e.range.start x.range.start
    · simp only [insertEditDesc, if_pos h]
      exact (ih.cons x).trans (List.Perm.swap e x xs)
    · simp only [insertEditDesc, if_neg h]
      exact List.Perm.refl _

theorem sortEdits_perm (edits : List TextEdit) : (sortEdits edits).Perm edits := by
  unfold sortEdits
  induction edits with
  | nil => simp
  | cons e t ih =>
    simp only [List.foldr_cons]
    exact (insertEditDesc_perm e (t.foldr insertEditDesc [])).trans (ih.cons e)

theorem applyOneEdit_ok (original content : Str) (e : TextEdit) (c : Str)
    (h : applyOneEdit original content e = .ok c) :
    ∃ so eo, pos_to_offset e.range.start original = some so ∧
      pos_to_offset e.range.endPos original = some eo ∧
      so ≤ eo ∧ eo ≤ utf8Len content := by
  unfold applyOneEdit at h
  cases hs : pos_to_offset e.range.start original with
  | none => rw [hs] at h; exact absurd h (by simp)
  | some so =>
    cases he : pos_to_offset e.range.endPos original with
    | none => rw [hs, he] at h; exact absurd h (by simp)
    | some eo =>
      rw [hs, he] at h
      by_cases hcond : so ≤ eo ∧ eo ≤ utf8Len content
      · exact ⟨so, eo, rfl, rfl, hcond.1, hcond.2⟩
      · exfalso
        simp [hcond] at h

theorem applyEditsGo_ok (original : Str) :
    ∀ (l : List TextEdit) (content c : Str),
      applyEditsGo original content l = .ok c →
      ∀ e ∈ l, ∃ so eo cur, pos_to_offset e.range.start original = some so ∧
        pos_to_offset e.range.endPos original = some eo ∧
        so ≤ eo ∧ eo ≤ utf8Len cur := by
  intro l
  induction l with
  | nil => intro content c _ e he; simp at he
  | cons x xs ih =>
    intro content c h e he
    simp only [applyEditsGo] at h
    cases hx : applyOneEdit original content x with
    | error err => rw [hx] at h; exact absurd h (by simp)
    | ok c1 =>
      rw [hx] at h
      rcases List.mem_cons.mp he with rfl | he2
      · obtain ⟨so, eo, h1, h2, h3, h4⟩ := applyOneEdit_ok original content e c1 hx
        exact ⟨so, eo, content, h1, h2, h3, h4⟩
      · exact ih c1 c h e he2

/-- C2: for a file with the given content, (a) a failing edit aborts the
whole batch with an error and NO write is performed; (b) when every edit
succeeds the file is written exactly once, with the final in-memory
copy; (c) on success every edit of the batch had both positions
convertible to byte offsets (by the line-walking UTF-8 sum) satisfying
start ≤ end ≤ length of the in-memory copy it was applied to; (d) the
applied sequence is a permutation of the given edits; and (e) it is
sorted by descending start position, hence — offsets being monotone in
positions — by descending start byte offset. -/
theorem C2_edit_batch_validation (content : Str) (edits : List TextEdit) :
    (∀ err, (apply_edits_to_file content edits).1 = .error err →
      (apply_edits_to_file content edits).2 = []) ∧
    (∀ c, (apply_edits_to_file content edits).1 = .ok c →
      (apply_edits_to_file content edits).2 = [c]) ∧
    (∀ c, (apply_edits_to_file content edits).1 = .ok c →
      ∀ e ∈ edits, ∃ so eo cur,
        pos_to_offset e.range.start content = some so ∧
        pos_to_offset e.range.endPos content = some eo ∧
        so ≤ eo ∧ eo ≤ utf8Len cur) ∧
    (sortEdits edits).Perm edits ∧
    (sortEdits edits).Pairwise (fun a b => ∀ oa ob,
      pos_to_offset a.range.start content = some oa →
      pos_to_offset b.range.start content = some ob → ob ≤ oa) := by
  refine ⟨?_, ?_, ?_, sortEdits_perm edits, ?_⟩
  · intro err h
    unfold apply_edits_to_file at h ⊢
    cases hgo : applyEditsGo content content (sortEdits edits) with
    | ok c => rw [hgo] at h; exact absurd h (by simp)
    | error e2 => rfl
  · intro c h
    unfold apply_edits_to_file at h ⊢
    cases hgo : applyEditsGo content content (sortEdits edits) with
    | ok c2 =>
      rw [hgo] at h
      simp only [Except.ok.injEq] at h
      simp [h]
    | error e2 => rw [hgo] at h; exact absurd h (by simp)
  · intro c h e he
    have hmem : e ∈ sortEdits edits := (sortEdits_perm edits).mem_iff.mpr he
    unfold apply_edits_to_file at h
    cases hgo : applyEditsGo content content (sortEdits edits) with
    | error e2 => rw [hgo] at h; exact absurd h (by simp)
    | ok c2 => exact applyEditsGo_ok content (sortEdits edits) content c2 hgo e hmem
  · exact (sortEdits_sorted edits).imp
      (fun hab oa ob hoa hob =>
        pos_to_offset_mono _ _ content hab ob oa hob hoa)

/-- C2, witness: the round-trip edit of the spec — "abcdef" with the
range covering "cd" replaced by "XYZ" — is written exactly once, as
"abXYZef". -/
theorem C2_edit_batch_validation_witness :
    (apply_edits_to_file "abcdef".toList [c2edit]).2 = ["abXYZef".toList] :=
  (C2_edit_batch_validation "abcdef".toList [c2edit]).2.1 "abXYZef".toList (by rfl)
